import Mathlib

/-!
# Web preview shell: record store, viewer bridge and record table

A shallow embedding of `src/main.js` (main process: PACS record store, preview
geometry, viewer bridge) and `src/renderer/renderer.js` (status line and record
table), followed by theorems about them.

Modelling conventions

* A JavaScript value that can sit in the backing file is a `JVal`: the JSON
  values.  Numbers are the integer-valued ones (`Date.now()` readings and their
  like); `undefined` is the absence of a property, `Option.none`.  The store
  handlers are first given on payloads of JSON values (`pacsSave`,
  `pacsUpdate`); `pacsSaveWire` is `pacs-save` on a payload as the message
  channel delivers it (`WVal`: also `undefined`, `NaN`, the infinities, a
  `BigInt`, other cloned objects), with what `JSON.stringify` makes of each.
* An object is the list of its members in insertion order.  `setProp` is
  property assignment (overwrite in place, or append), `spreadInto` is object
  spread.  Objects built by the program and objects read by `JSON.parse` have
  pairwise distinct keys (`ObjWF`); array-index-like keys are not moved to the
  front, as no statement below depends on the order of members.
* The file system is a `Disk`: what `fs.readFileSync` followed by `JSON.parse`
  would observe, and whether `fs.writeFileSync` succeeds.  A successful write of
  `records` is read back as `records` (`JSON.parse` inverts `JSON.stringify` on
  JSON values); a failed write leaves the file as it was.
* `Date.now()` is an argument of the handler that calls it.
* A table row is its `editing` class and its buttons.  The record texts are
  interpolated into `innerHTML` unescaped: for texts without markup characters
  the rows are those of the template, for other texts they are what the HTML
  parser builds, an input of the model (`Listing.records`).
* A handler that throws makes the `invoke` promise reject: `Except JsError`.
-/

namespace WebPreview

/-! ## JSON values and objects -/

/-- A JSON value, as produced by `JSON.parse` or carried by a message. -/
inductive JVal where
  | null : JVal
  | bool (b : Bool) : JVal
  | num (n : Int) : JVal
  | str (s : String) : JVal
  | arr (items : List JVal) : JVal
  | obj (members : List (String × JVal)) : JVal

/-- The members of an object, in insertion order. -/
abbrev Obj := List (String × JVal)

/-- The exception raised by a failing property access or method call. -/
inductive JsError where
  | typeError : JsError
  | syntaxError : JsError
  | ioError : JsError

/-- Property read `o[k]` on an object; `none` is `undefined`. -/
def getProp : Obj → String → Option JVal
  | [], _ => none
  | (k', v) :: rest, k => if k' = k then some v else getProp rest k

/-- Property write `o[k] = v`: overwrite where the key stands, else append. -/
def setProp : Obj → String → JVal → Obj
  | [], k, v => [(k, v)]
  | (k', v') :: rest, k, v =>
      if k' = k then (k, v) :: rest else (k', v') :: setProp rest k v

/-- Object spread `{ ...target, ...src }` onto an already built `target`:
the members of `src` are assigned in order. -/
def spreadInto (target : Obj) (src : Obj) : Obj :=
  src.foldl (fun acc kv => setProp acc kv.1 kv.2) target

/-- The keys of an object. -/
def keys (o : Obj) : List String := o.map Prod.fst

/-- An object as JavaScript has them: no key occurs twice. -/
def ObjWF (o : Obj) : Prop := (keys o).Nodup

/-- Index-keyed members of an array or of the characters of a string. -/
def indexed (vs : List JVal) : Obj :=
  vs.enum.map (fun iv => (toString iv.1, iv.2))

/-- Own enumerable properties of a value, as object spread `{ ...v }` copies
them: the members of an object, the indexed elements of an array, the indexed
characters of a string, nothing for the other primitives.  JavaScript indexes
a string by UTF-16 unit; the string branch is exact for text within the Basic
Multilingual Plane, where unit and character coincide, and keeps a character
outside it as one member, since half of a surrogate pair is no `String`. -/
def ownProps : JVal → Obj
  | .obj m => m
  | .arr xs => indexed xs
  | .str s => indexed (s.toList.map (fun c => JVal.str (String.singleton c)))
  | _ => []

/-- The read `r.id`: throws on `null`, is `undefined` on every value that is
not an object, and the member lookup on an object. -/
def getId : JVal → Except JsError (Option JVal)
  | .null => .error .typeError
  | .obj m => .ok (getProp m "id")
  | _ => .ok none

/-- Strict equality `a === b` of two property reads.  Primitives compare by
value; an array or object is only equal to itself, and the two sides here
always come from different deserialisations, so compound values never match. -/
def strictEq : Option JVal → Option JVal → Bool
  | none, none => true
  | some .null, some .null => true
  | some (.bool a), some (.bool b) => a == b
  | some (.num a), some (.num b) => a == b
  | some (.str a), some (.str b) => a == b
  | _, _ => false

/-- The call `records.findIndex(r => r.id === uid)` on an array: the first
index whose element matches, `none` for `-1`; the callback may throw. -/
def findIndex (uid : Option JVal) : List JVal → Except JsError (Option Nat)
  | [] => .ok none
  | r :: rest =>
      match getId r with
      | .error e => .error e
      | .ok rid =>
          if strictEq rid uid then .ok (some 0)
          else
            match findIndex uid rest with
            | .error e => .error e
            | .ok none => .ok none
            | .ok (some i) => .ok (some (i + 1))

/-! ## The backing file -/

/-- The text of `pacs.json`, as `JSON.parse` sees it. -/
inductive FileText where
  /-- Text on which `JSON.parse` throws. -/
  | invalid : FileText
  /-- Valid JSON text, denoting the value `v`. -/
  | json (v : JVal) : FileText

/-- The file system as the store handlers see it. -/
structure Disk where
  /-- The text of the backing file; `none` when it is absent or unreadable. -/
  file : Option FileText
  /-- Whether `fs.writeFileSync` on the backing file succeeds. -/
  writable : Bool

/-- The call `fs.readFileSync(pacsFilePath, 'utf8')`. -/
def readFileSync (d : Disk) : Except JsError FileText :=
  match d.file with
  | none => .error .ioError
  | some t => .ok t

/-- The call `JSON.parse(data)`. -/
def jsonParse : FileText → Except JsError JVal
  | .invalid => .error .syntaxError
  | .json v => .ok v

/-- The call `fs.writeFileSync(pacsFilePath, JSON.stringify(records, null, 2)
+ os.EOL, 'utf8')`: the file then holds the JSON text of `records`. -/
def writeFileSync (records : List JVal) (d : Disk) : Except JsError Disk :=
  if d.writable then .ok { d with file := some (.json (.arr records)) }
  else .error .ioError

/-- The function `readPacsFile`: read and parse inside `try`, `[]` from the
`catch`. -/
def readPacsFile (d : Disk) : Except JsError JVal :=
  match readFileSync d with
  | .error _ => .ok (.arr [])
  | .ok data =>
      match jsonParse data with
      | .error _ => .ok (.arr [])
      | .ok v => .ok v

/-- The function `writePacsFile`: write inside `try` and return `true`,
`false` from the `catch`. -/
def writePacsFile (records : List JVal) (d : Disk) : Except JsError (Bool × Disk) :=
  match writeFileSync records d with
  | .ok d' => .ok (true, d')
  | .error _ => .ok (false, d)

/-- The reply `{ ok, record }` of `pacs-save`. -/
structure SaveResult where
  ok : Bool
  record : Obj

/-- The reply of `pacs-update`: `{ ok: true, record }` or `{ ok: false }`. -/
structure UpdateResult where
  ok : Bool
  record : Option Obj

/-- The handler of `pacs-save`.  `now` is the reading of `Date.now()`; the
value of `writePacsFile(records)` is discarded. -/
def pacsSave (now : Int) (record : Obj) (d : Disk) :
    Except JsError (SaveResult × Disk) :=
  match readPacsFile d with
  | .error e => .error e
  | .ok records =>
      let withId := spreadInto [("id", JVal.num now)] record
      match records with
      | .arr items =>
          match writePacsFile (items ++ [JVal.obj withId]) d with
          | .error e => .error e
          | .ok (_, d') => .ok ({ ok := true, record := withId }, d')
      | _ => .error .typeError

/-- The handler of `pacs-list`. -/
def pacsList (d : Disk) : Except JsError JVal := readPacsFile d

/-- The handler of `pacs-update`; the value of `writePacsFile(records)` is
discarded. -/
def pacsUpdate (updated : Obj) (d : Disk) :
    Except JsError (UpdateResult × Disk) :=
  match readPacsFile d with
  | .error e => .error e
  | .ok (.arr items) =>
      match findIndex (getProp updated "id") items with
      | .error e => .error e
      | .ok (some idx) =>
          let merged := spreadInto (ownProps (items.getD idx .null)) updated
          match writePacsFile (items.set idx (JVal.obj merged)) d with
          | .error e => .error e
          | .ok (_, d') => .ok ({ ok := true, record := some merged }, d')
      | .ok none => .ok ({ ok := false, record := none }, d)
  | .ok _ => .error .typeError

/-! ### Payloads as the message channel delivers them -/

/-- A member value as `invoke` delivers it to a handler (structured clone): a
JSON value, or one of the values that JSON text cannot hold. -/
inductive WVal where
  | json (v : JVal) : WVal
  | undefined : WVal
  | nan : WVal
  | infinity (negative : Bool) : WVal
  | bigint (n : Int) : WVal
  /-- Any other cloned object (a `Date`, a `Map`, an array holding `NaN`, ...),
  with the JSON value that `JSON.stringify` then `JSON.parse` makes of it;
  `none` when `JSON.stringify` throws on it. -/
  | foreign (image : Option JVal) : WVal

/-- The members of a delivered object, in insertion order. -/
abbrev WObj := List (String × WVal)

/-- Property read on a delivered object; `none` when it has no such member. -/
def getMember : WObj → String → Option WVal
  | [], _ => none
  | (k', w) :: rest, k => if k' = k then some w else getMember rest k

/-- Property write on a delivered object: overwrite in place, else append. -/
def setMember : WObj → String → WVal → WObj
  | [], k, w => [(k, w)]
  | (k', w') :: rest, k, w =>
      if k' = k then (k, w) :: rest else (k', w') :: setMember rest k w

/-- Object spread of `src` onto an already built `target`. -/
def spreadMembers (target : WObj) (src : WObj) : WObj :=
  src.foldl (fun acc kw => setMember acc kw.1 kw.2) target

/-- The keys of a delivered object. -/
def memberKeys (o : WObj) : List String := o.map Prod.fst

/-- A JSON object seen as a delivered object. -/
def toWire (o : Obj) : WObj := o.map (fun kv => (kv.1, WVal.json kv.2))

/-- What `JSON.stringify` does with one member of an object. -/
inductive JsonImage where
  /-- The member is left out. -/
  | omitted : JsonImage
  /-- The call throws. -/
  | throws : JsonImage
  /-- The member is written, and read back as `v`. -/
  | value (v : JVal) : JsonImage

/-- The image of a member value: a JSON value is written as it is,
`undefined` is left out, `NaN` and the infinities are written as `null`, a
`BigInt` makes `JSON.stringify` throw. -/
def jsonImage : WVal → JsonImage
  | .json v => .value v
  | .undefined => .omitted
  | .nan => .value .null
  | .infinity _ => .value .null
  | .bigint _ => .throws
  | .foreign (some v) => .value v
  | .foreign none => .throws

/-- The object that `JSON.parse` reads back from the `JSON.stringify` text of
a delivered object; `none` when `JSON.stringify` throws. -/
def stringifyObj : WObj → Option Obj
  | [] => some []
  | (k, w) :: rest =>
      match jsonImage w, stringifyObj rest with
      | .throws, _ => none
      | _, none => none
      | .omitted, some o => some o
      | .value v, some o => some ((k, v) :: o)

/-- What a member reads back as from the file: `none` when it has been left
out or was not there. -/
def storedValue : Option WVal → Option JVal
  | none => none
  | some w =>
      match jsonImage w with
      | .value v => some v
      | _ => none

/-- The function `writePacsFile` on the records read from the file followed by
a delivered record: `JSON.stringify` runs inside the `try`, so when it throws
nothing is written and `false` is returned. -/
def writePacsFileWire (items : List JVal) (pushed : WObj) (d : Disk) :
    Except JsError (Bool × Disk) :=
  match stringifyObj pushed with
  | none => .ok (false, d)
  | some o => writePacsFile (items ++ [JVal.obj o]) d

/-- The reply `{ ok, record }` of `pacs-save`, the record as it is sent. -/
structure WireSaveResult where
  ok : Bool
  record : WObj

/-- The handler of `pacs-save` on a payload as `invoke` delivers it; on a
payload of JSON values it is `pacsSave`. -/
def pacsSaveWire (now : Int) (record : WObj) (d : Disk) :
    Except JsError (WireSaveResult × Disk) :=
  match readPacsFile d with
  | .error e => .error e
  | .ok records =>
      let withId := spreadMembers [("id", WVal.json (.num now))] record
      match records with
      | .arr items =>
          match writePacsFileWire items withId d with
          | .error e => .error e
          | .ok (_, d') => .ok ({ ok := true, record := withId }, d')
      | _ => .error .typeError

/-! ### Sequences of store calls -/

/-- A run of `save` calls, each with its clock reading: the records returned,
in call order, and the disk left behind. -/
def saveAll : List (Int × Obj) → Disk → Except JsError (List Obj × Disk)
  | [], d => .ok ([], d)
  | (now, p) :: rest, d =>
      match pacsSave now p d with
      | .error e => .error e
      | .ok (res, d1) =>
          match saveAll rest d1 with
          | .error e => .error e
          | .ok (rs, d2) => .ok (res.record :: rs, d2)

/-- One call of a mutating store operation. -/
inductive StoreCall where
  | save (now : Int) (payload : Obj) : StoreCall
  | update (payload : Obj) : StoreCall

/-- The disk after one call. -/
def applyCall : StoreCall → Disk → Except JsError Disk
  | .save now p, d =>
      match pacsSave now p d with
      | .error e => .error e
      | .ok (_, d') => .ok d'
  | .update p, d =>
      match pacsUpdate p d with
      | .error e => .error e
      | .ok (_, d') => .ok d'

/-- The disk after a sequence of calls. -/
def runCalls : List StoreCall → Disk → Except JsError Disk
  | [], d => .ok d
  | c :: rest, d =>
      match applyCall c d with
      | .error e => .error e
      | .ok d' => runCalls rest d'

/-- The `id` of a stored record, `none` when it has none. -/
def recordId : JVal → Option JVal
  | .obj m => getProp m "id"
  | _ => none

/-- The clock readings of the `save` calls of a sequence, in call order. -/
def saveTimes : List StoreCall → List Int
  | [] => []
  | .save now _ :: rest => now :: saveTimes rest
  | .update _ :: rest => saveTimes rest

/-- The calls the record form and the table make: a `save` payload brings no
`id` of its own, an `update` payload is an object with distinct keys. -/
def CallOk : StoreCall → Prop
  | .save _ p => "id" ∉ keys p
  | .update p => ObjWF p

/-! ## Preview geometry (main process) -/

/-- A rectangle, as `getContentBounds`, `getBounds` and `setBounds` use. -/
structure Rect where
  x : Int
  y : Int
  width : Int
  height : Int
  deriving DecidableEq

/-- The two module variables of `main.js`: the window, seen through its
content bounds, and the viewer, seen through the bounds last set on it. -/
structure Shell where
  mainWindow : Option Rect
  previewView : Option Rect
  deriving DecidableEq

/-- The constant `leftPanelWidth`. -/
def leftPanelWidth : Int := 400

/-- The function `resizePreview`. -/
def resizePreview (s : Shell) : Shell :=
  match s.previewView, s.mainWindow with
  | some _, some bounds =>
      { s with previewView := some (Rect.mk leftPanelWidth 0
          (bounds.width - leftPanelWidth) bounds.height) }
  | _, _ => s

/-- The reply `{ ok }` of the suspend and resume handlers. -/
structure OkReply where
  ok : Bool
  deriving DecidableEq

/-- The handler of `preview-suspend`. -/
def previewSuspend (s : Shell) : OkReply × Shell :=
  match s.mainWindow, s.previewView with
  | some b, some _ =>
      ({ ok := true },
       { s with previewView := some (Rect.mk b.width 0 0 0) })
  | _, _ => ({ ok := false }, s)

/-- The handler of `preview-resume`. -/
def previewResume (s : Shell) : OkReply × Shell :=
  match s.mainWindow, s.previewView with
  | some _, some _ => ({ ok := true }, resizePreview s)
  | _, _ => ({ ok := false }, s)

/-! ## Viewer bridge -/

/-- How `webContents.loadURL(url)` ends. -/
inductive NavOutcome where
  /-- The page loads. -/
  | loads : NavOutcome
  /-- The returned promise rejects: the navigation fails. -/
  | rejects : NavOutcome
  /-- The call itself throws. -/
  | throws (message : String) : NavOutcome

/-- The embedded viewer, as far as the bridge handlers observe it. -/
structure Viewer where
  /-- The outcome of navigating to a URL. -/
  loadURL : String → NavOutcome
  /-- Whether `document.querySelector(s)` finds an element in the page. -/
  hasMatch : String → Bool
  /-- The message with which `executeJavaScript` rejects, when it does. -/
  scriptError : Option String

/-- The function `loadWebsite` of `main.js`: nothing without a viewer, else
`loadURL` inside `try`, whose `catch` logs with `console.error`.  What it logs
is all it gives back; the style sheet it injects once the page has loaded is
not modelled. -/
def loadWebsite (previewView : Option Viewer) (url : String) : List String :=
  match previewView with
  | none => []
  | some v =>
      match v.loadURL url with
      | .throws m => ["Error loading website: " ++ m]
      | _ => []

/-- The reply `{ success }` of `load-website`. -/
structure LoadReply where
  success : Bool
  deriving DecidableEq

/-- The handler of `load-website`: calls `loadWebsite(url)`, then replies. -/
def handleLoadWebsite (previewView : Option Viewer) (url : String) :
    Except JsError LoadReply :=
  let _logged := loadWebsite previewView url
  .ok { success := true }

/-- The list `selectors` of `trigger-eye`. -/
def eyeSelectors : List String :=
  ["img[title*=\"image viewer\" i]",
   "[title*=\"image viewer\" i]",
   "img[alt*=\"image viewer\" i]",
   "img[title*=\"Load selected study\" i]",
   "[title*=\"Load selected study\" i]"]

/-- The closing loop of the injected script: click the first icon a selector
finds and return `true`, else return `false`. -/
def clickFirstIcon (hasMatch : String → Bool) : List String → Bool
  | [] => false
  | s :: rest => if hasMatch s then true else clickFirstIcon hasMatch rest

/-- The reply `{ ok, error? }` of `trigger-eye`. -/
structure EyeReply where
  ok : Bool
  error : Option String
  deriving DecidableEq

/-- The handler of `trigger-eye`: `ok = false` without a viewer, `ok = false`
with the message when `executeJavaScript` rejects, else `ok` is what the
injected script returns.  The click on the first row that the script makes
before the icon loop has no part in that value. -/
def triggerEye (previewView : Option Viewer) : Except JsError EyeReply :=
  match previewView with
  | none => .ok { ok := false, error := none }
  | some v =>
      match v.scriptError with
      | some m => .ok { ok := false, error := some m }
      | none => .ok { ok := clickFirstIcon v.hasMatch eyeSelectors, error := none }

/-! ## Status line (renderer) -/

/-- What `updateStatus(message, isError)` leaves on the status line. -/
structure Status where
  message : String
  isError : Bool
  deriving DecidableEq

/-- The function `loadWebsite` of `renderer.js`: the status it ends with.
`url` is the trimmed text of the input, `urlParses` tells whether `new URL(url)`
returns, `invoke` is the call through the bridge.  The error status of the
last branch ends with the text of `error.message`, which is not modelled. -/
def rendererLoadWebsite (url : String) (urlParses : Bool)
    (invoke : String → Except JsError LoadReply) : Status :=
  if url = "" then { message := "Please enter a URL", isError := true }
  else if !urlParses then { message := "Please enter a valid URL", isError := true }
  else
    match invoke url with
    | .ok _ => { message := "Website loaded successfully", isError := false }
    | .error _ => { message := "Error loading website: ", isError := true }

/-- The click handler of `eyeBtn`: the status it ends with, given how the
`invoke` settles. -/
def eyeBtnClick (reply : Except JsError EyeReply) : Status :=
  match reply with
  | .ok _ => { message := "Triggered image viewer", isError := false }
  | .error _ => { message := "Failed to trigger image viewer", isError := true }

/-! ## Record table (renderer) -/

/-- The content of the actions cell of a table row. -/
inductive RowActions where
  /-- No button: the placeholder and failure rows. -/
  | noButtons : RowActions
  /-- The button `data-edit="id"`. -/
  | editButton (id : String) : RowActions
  /-- The buttons `data-save="id"` and `data-cancel="id"`. -/
  | saveCancel (id : String) : RowActions
  deriving DecidableEq

/-- A row of `pacsListBody`: whether it carries the class `editing`, and its
actions cell.  The contents of the four data cells are not part of the row. -/
structure Row where
  editing : Bool
  actions : RowActions
  deriving DecidableEq

/-- The texts of one record as the row template interpolates them:
`r.id`, `r.node`, `r.ip`, `r.port`, `r.ae`. -/
structure RowData where
  id : String
  node : String
  ip : String
  port : String
  ae : String

/-- Whether a text holds none of the characters `<`, `>`, `&` and the double
quote, which the HTML parser behind `innerHTML` reads as markup. -/
def plainText (s : String) : Bool :=
  s.toList.all (fun c => !(c == '<' || c == '>' || c == '&' || c == Char.ofNat 34))

/-- Whether the five texts of a record are all free of markup. -/
def RowData.plain (r : RowData) : Bool :=
  plainText r.id && plainText r.node && plainText r.ip && plainText r.port && plainText r.ae

/-- What `listPacs()` gives `refreshPacsList`: a failure (the `catch` branch),
or the texts of the records.  The texts are interpolated into `innerHTML`
without escaping, so when one of them holds markup the rows are whatever the
HTML parser builds from the text, here `parsed`; `parsed` plays no part when
all texts are plain. -/
inductive Listing where
  | failed : Listing
  | records (rs : List RowData) (parsed : List Row) : Listing

/-- Whether a listing holds plain texts only. -/
def Listing.plain : Listing → Bool
  | .failed => true
  | .records rs _ => rs.all RowData.plain

/-- The function `refreshPacsList`: the rows of `pacsListBody` after it.  A
failure and an empty list give one row without buttons; records with plain
texts give one display row each, with its edit button; records with markup in
a text give the rows the HTML parser builds. -/
def refreshPacsList : Listing → List Row
  | .failed => [{ editing := false, actions := .noButtons }]
  | .records [] _ => [{ editing := false, actions := .noButtons }]
  | .records rs parsed =>
      if rs.all RowData.plain then
        rs.map (fun r => { editing := false, actions := .editButton r.id })
      else parsed

/-- The function `startEditPacs(id)`: the first row whose edit button carries
`id` gets the class `editing` and the save and cancel buttons. -/
def startEditPacs (id : String) : List Row → List Row
  | [] => []
  | r :: rest =>
      if r.actions = .editButton id then
        { editing := true, actions := .saveCancel id } :: rest
      else r :: startEditPacs id rest

/-- A user action on the table. -/
inductive TableAction where
  /-- A click on the edit button of the row at `row`. -/
  | clickEdit (row : Nat) : TableAction
  /-- A click on the save button of the row at `row`: `filled` tells whether
  the four trimmed inputs are all non-empty, `updateOk` whether `updatePacs`
  resolves to a reply with `ok` set, `listing` what the refresh then reads. -/
  | clickSave (row : Nat) (filled : Bool) (updateOk : Bool) (listing : Listing) : TableAction
  /-- A click on the cancel button of the row at `row`. -/
  | clickCancel (row : Nat) (listing : Listing) : TableAction

/-- The table after one action.  A click on a button the row does not show
changes nothing. -/
def tableStep (rows : List Row) : TableAction → List Row
  | .clickEdit i =>
      match rows.get? i with
      | some { editing := _, actions := .editButton id } => startEditPacs id rows
      | _ => rows
  | .clickSave i filled updateOk listing =>
      match rows.get? i with
      | some { editing := _, actions := .saveCancel _ } =>
          if filled && updateOk then refreshPacsList listing else rows
      | _ => rows
  | .clickCancel i listing =>
      match rows.get? i with
      | some { editing := _, actions := .saveCancel _ } => refreshPacsList listing
      | _ => rows

/-- The table after a sequence of actions. -/
def tableRun (rows : List Row) (acts : List TableAction) : List Row :=
  acts.foldl tableStep rows

/-- The number of rows in the editing state. -/
def editingCount (rows : List Row) : Nat :=
  (rows.filter (fun r => r.editing)).length

/-- Whether the listing an action makes the table read holds plain texts only. -/
def TableAction.plain : TableAction → Bool
  | .clickEdit _ => true
  | .clickSave _ _ _ l => l.plain
  | .clickCancel _ l => l.plain

/-- The number of clicks on an edit button in a sequence of actions. -/
def editClicks : List TableAction → Nat
  | [] => 0
  | .clickEdit _ :: rest => editClicks rest + 1
  | _ :: rest => editClicks rest

/-! ## Sample data -/

/-- A record as `pacs-save` stores it. -/
def recA : Obj :=
  [("id", .num 1700000000000), ("node", .str "A"), ("ip", .str "10.0.0.1"),
   ("port", .str "104"), ("ae", .str "AE1")]

/-- A second stored record. -/
def recB : Obj :=
  [("id", .num 1700000000001), ("node", .str "B"), ("ip", .str "10.0.0.2"),
   ("port", .str "105"), ("ae", .str "AE2")]

/-- A disk whose file holds `recA` and `recB`. -/
def diskAB (writable : Bool) : Disk :=
  { file := some (.json (.arr [.obj recA, .obj recB])), writable := writable }

/-- A disk without a backing file. -/
def diskNone (writable : Bool) : Disk :=
  { file := none, writable := writable }

/-- The payload of the save form. -/
def payloadA : Obj :=
  [("node", .str "A"), ("ip", .str "10.0.0.1"), ("port", .str "104"), ("ae", .str "AE1")]

/-- A second payload of the save form. -/
def payloadB : Obj :=
  [("node", .str "B"), ("ip", .str "10.0.0.2"), ("port", .str "105"), ("ae", .str "AE2")]

/-- A disk whose file is valid JSON that is not an array. -/
def diskObject : Disk :=
  { file := some (.json (.obj [("a", .num 1)])), writable := true }

/-- A viewer showing a page in which no icon selector finds an element. -/
def plainPage : Viewer :=
  { loadURL := fun _ => .loads, hasMatch := fun _ => false, scriptError := none }

/-- A viewer in which navigation fails and the injected script throws. -/
def brokenViewer : Viewer :=
  { loadURL := fun _ => .rejects, hasMatch := fun _ => false,
    scriptError := some "Script failed to execute" }

/-- A viewer whose `loadURL` throws. -/
def throwingViewer : Viewer :=
  { loadURL := fun _ => .throws "ERR_INVALID_URL", hasMatch := fun _ => false,
    scriptError := none }

/-- Content bounds of a window of 1400 by 900. -/
def windowBounds : Rect := { x := 0, y := 0, width := 1400, height := 900 }

/-- A stored record with the same `id` as `recA`. -/
def recA2 : Obj :=
  [("id", .num 1700000000000), ("node", .str "A2"), ("ip", .str "10.0.0.3"),
   ("port", .str "106"), ("ae", .str "AE3")]

/-- A disk whose file holds `recB`, `recA`, `recA2`: two records share an
`id`, after one that has another. -/
def diskDup (writable : Bool) : Disk :=
  { file := some (.json (.arr [.obj recB, .obj recA, .obj recA2])), writable := writable }

/-- The texts of `recA`. -/
def rowA : RowData :=
  { id := "1700000000000", node := "A", ip := "10.0.0.1", port := "104", ae := "AE1" }

/-- The texts of `recB`. -/
def rowB : RowData :=
  { id := "1700000000001", node := "B", ip := "10.0.0.2", port := "105", ae := "AE2" }

/-- The texts of a record whose node text holds markup. -/
def rowMarkup : RowData :=
  { id := "1700000000002", node := "</td></tr><tr class=\"editing\"><td>x",
    ip := "10.0.0.3", port := "106", ae := "AE3" }

/-- A delivered payload whose `id` is `NaN`. -/
def payloadNaN : WObj :=
  [("id", .nan), ("node", .json (.str "A")), ("ip", .json (.str "10.0.0.1")),
   ("port", .json (.str "104")), ("ae", .json (.str "AE1"))]

/-! ## Objects: reads after writes -/

theorem getProp_setProp (o : Obj) (k : String) (v : JVal) (k' : String) :
    getProp (setProp o k v) k' = if k = k' then some v else getProp o k' := by
  induction o with
  | nil => simp [setProp, getProp]
  | cons kv rest ih =>
      obtain ⟨k0, v0⟩ := kv
      by_cases h0 : k0 = k
      · subst h0
        by_cases h1 : k0 = k' <;> simp [setProp, getProp, h1]
      · by_cases h1 : k0 = k'
        · subst h1
          have h2 : ¬ k = k0 := fun h => h0 h.symm
          simp [setProp, getProp, h0, h2]
        · simp [setProp, getProp, h0, h1, ih]

theorem getProp_eq_none_of_not_mem (o : Obj) (k : String) (h : k ∉ keys o) :
    getProp o k = none := by
  induction o with
  | nil => rfl
  | cons kv rest ih =>
      obtain ⟨k0, v0⟩ := kv
      simp only [keys, List.map_cons, List.mem_cons, not_or] at h
      have h0 : ¬ k0 = k := fun e => h.1 e.symm
      simp only [getProp, h0, if_false]
      exact ih h.2

theorem getProp_isSome_of_mem (o : Obj) (k : String) (h : k ∈ keys o) :
    (getProp o k).isSome = true := by
  induction o with
  | nil => simp [keys] at h
  | cons kv rest ih =>
      obtain ⟨k0, v0⟩ := kv
      by_cases h0 : k0 = k
      · simp [getProp, h0]
      · simp only [keys, List.map_cons, List.mem_cons] at h
        rcases h with h | h
        · exact absurd h.symm h0
        · simp only [getProp, h0, if_false]
          exact ih h

theorem getProp_spreadInto_of_not_mem (src : Obj) (target : Obj) (k : String)
    (h : k ∉ keys src) : getProp (spreadInto target src) k = getProp target k := by
  induction src generalizing target with
  | nil => rfl
  | cons kv rest ih =>
      obtain ⟨k0, v0⟩ := kv
      simp only [keys, List.map_cons, List.mem_cons, not_or] at h
      have h0 : ¬ k0 = k := fun e => h.1 e.symm
      have step : spreadInto target ((k0, v0) :: rest) =
          spreadInto (setProp target k0 v0) rest := rfl
      rw [step, ih (setProp target k0 v0) h.2, getProp_setProp]
      simp [h0]

theorem getProp_spreadInto_of_mem (src : Obj) (target : Obj) (k : String)
    (hwf : ObjWF src) (h : k ∈ keys src) :
    getProp (spreadInto target src) k = getProp src k := by
  induction src generalizing target with
  | nil => simp [keys] at h
  | cons kv rest ih =>
      obtain ⟨k0, v0⟩ := kv
      have step : spreadInto target ((k0, v0) :: rest) =
          spreadInto (setProp target k0 v0) rest := rfl
      simp only [ObjWF, keys, List.map_cons, List.nodup_cons] at hwf
      by_cases h0 : k0 = k
      · subst h0
        rw [step, getProp_spreadInto_of_not_mem rest _ k0 hwf.1, getProp_setProp]
        simp [getProp]
      · simp only [keys, List.map_cons, List.mem_cons] at h
        rcases h with h | h
        · exact absurd h.symm h0
        · rw [step, ih (setProp target k0 v0) hwf.2 h]
          simp [getProp, h0]

theorem strictEq_eq (a b : Option JVal) (h : strictEq a b = true) : a = b := by
  unfold strictEq at h
  split at h <;> simp_all

/-! ## The store: reading and writing -/

theorem readPacsFile_total (d : Disk) : ∃ v, readPacsFile d = .ok v := by
  unfold readPacsFile
  split
  · exact ⟨_, rfl⟩
  · split <;> exact ⟨_, rfl⟩

theorem readPacsFile_after_write (records : List JVal) (d : Disk) (hw : d.writable = true) :
    ∃ d', writePacsFile records d = .ok (true, d') ∧
      readPacsFile d' = .ok (.arr records) ∧ d'.writable = true := by
  refine ⟨{ d with file := some (.json (.arr records)) }, ?_, rfl, hw⟩
  simp [writePacsFile, writeFileSync, hw]

theorem writePacsFile_unwritable (records : List JVal) (d : Disk) (hw : d.writable = false) :
    writePacsFile records d = .ok (false, d) := by
  simp [writePacsFile, writeFileSync, hw]

theorem findIndex_no_match (uid : Option JVal) (L : List Obj)
    (hno : ∀ r ∈ L, strictEq (getProp r "id") uid = false) :
    findIndex uid (L.map JVal.obj) = .ok none := by
  induction L with
  | nil => rfl
  | cons r rest ih =>
      have h0 := hno r (List.mem_cons_self _ _)
      have ih' := ih (fun r' hr' => hno r' (List.mem_cons_of_mem _ hr'))
      simp [findIndex, getId, h0, ih']

/-- C1: on a store that reads as a list of records none of which has the id of
the payload, `pacs-update` replies `ok = false` and leaves the disk as it was,
so `pacs-list` answers afterwards what it answered before. -/
theorem pacsUpdate_unknown_id (d : Disk) (L : List Obj) (updated : Obj)
    (hstore : readPacsFile d = .ok (.arr (L.map JVal.obj)))
    (hno : ∀ r ∈ L, strictEq (getProp r "id") (getProp updated "id") = false) :
    ∃ res d', pacsUpdate updated d = .ok (res, d') ∧
      res.ok = false ∧ res.record = none ∧ d' = d ∧ pacsList d' = pacsList d := by
  refine ⟨{ ok := false, record := none }, d, ?_, rfl, rfl, rfl, rfl⟩
  simp [pacsUpdate, hstore, findIndex_no_match _ L hno]

theorem pacsUpdate_unknown_id_witness :
    readPacsFile (diskAB true) = .ok (.arr ([recA, recB].map JVal.obj)) ∧
    (∀ r ∈ [recA, recB],
        strictEq (getProp r "id") (getProp [("id", .num 7), ("ae", .str "NEW")] "id") = false) ∧
    ∃ res d', pacsUpdate [("id", .num 7), ("ae", .str "NEW")] (diskAB true) = .ok (res, d') ∧
      res.ok = false ∧ res.record = none ∧ d' = diskAB true ∧
      pacsList d' = pacsList (diskAB true) :=
  ⟨rfl, by decide,
   pacsUpdate_unknown_id (diskAB true) [recA, recB] [("id", .num 7), ("ae", .str "NEW")] rfl
     (by decide)⟩

/-! ## The store: update -/

theorem findIndex_first_match (uid : Option JVal) (L : List Obj)
    (hex : ∃ r ∈ L, strictEq (getProp r "id") uid = true) :
    ∃ idx r, L[idx]? = some r ∧ strictEq (getProp r "id") uid = true ∧
      (∀ j r', j < idx → L[j]? = some r' → strictEq (getProp r' "id") uid = false) ∧
      findIndex uid (L.map JVal.obj) = .ok (some idx) := by
  induction L with
  | nil =>
      obtain ⟨r, hr, _⟩ := hex
      simp at hr
  | cons r0 rest ih =>
      by_cases h0 : strictEq (getProp r0 "id") uid = true
      · refine ⟨0, r0, by simp, h0, ?_, ?_⟩
        · intro j r' hj
          omega
        · simp [findIndex, getId, h0]
      · have hrest : ∃ r ∈ rest, strictEq (getProp r "id") uid = true := by
          obtain ⟨r, hr, hm⟩ := hex
          rcases List.mem_cons.mp hr with h | h
          · subst h
            exact absurd hm h0
          · exact ⟨r, h, hm⟩
        obtain ⟨idx, r, hget, hm, hfirst, hfind⟩ := ih hrest
        refine ⟨idx + 1, r, by simpa using hget, hm, ?_, ?_⟩
        · intro j r' hj hj'
          cases j with
          | zero =>
              simp at hj'
              subst hj'
              simpa using h0
          | succ j =>
              exact hfirst j r' (by omega) (by simpa using hj')
        · simp [findIndex, getId, h0, hfind]

/-- C2 (as amended): on a store that reads as the list of records `L`, with a
payload whose `id` strictly equals the `id` of some record, `pacs-update`
replies `ok = true` with the merged record, built on the first matching
record: each key of the payload has the payload's value, each other key keeps
the record's value.  When the file write succeeds, `pacs-list` afterwards
answers `L` with that one record replaced: same length, every other position
untouched. -/
theorem pacsUpdate_merges (d : Disk) (L : List Obj) (updated : Obj)
    (hstore : readPacsFile d = .ok (.arr (L.map JVal.obj)))
    (hwf : ObjWF updated)
    (hex : ∃ r ∈ L, strictEq (getProp r "id") (getProp updated "id") = true)
    (hw : d.writable = true) :
    ∃ idx r merged d',
      L[idx]? = some r ∧
      strictEq (getProp r "id") (getProp updated "id") = true ∧
      (∀ j r', j < idx → L[j]? = some r' →
          strictEq (getProp r' "id") (getProp updated "id") = false) ∧
      pacsUpdate updated d = .ok ({ ok := true, record := some merged }, d') ∧
      (∀ k ∈ keys updated, getProp merged k = getProp updated k) ∧
      (∀ k, k ∉ keys updated → getProp merged k = getProp r k) ∧
      pacsList d' = .ok (.arr ((L.set idx merged).map JVal.obj)) ∧
      (L.set idx merged).length = L.length ∧
      (L.set idx merged)[idx]? = some merged ∧
      (∀ j, j ≠ idx → (L.set idx merged)[j]? = L[j]?) := by
  obtain ⟨idx, r, hget, hm, hfirst, hfind⟩ := findIndex_first_match _ L hex
  have hlt : idx < L.length := by
    rcases Nat.lt_or_ge idx L.length with h | h
    · exact h
    · rw [List.getElem?_eq_none h] at hget
      cases hget
  have hitem : (L.map JVal.obj).getD idx .null = JVal.obj r := by
    simp [hget]
  obtain ⟨d', hwrite, hread, _⟩ :=
    readPacsFile_after_write ((L.set idx (spreadInto r updated)).map JVal.obj) d hw
  refine ⟨idx, r, spreadInto r updated, d', hget, hm, hfirst, ?_, ?_, ?_, ?_, ?_, ?_, ?_⟩
  · rw [List.map_set] at hwrite
    simp only [pacsUpdate, hstore, hfind, hitem, ownProps, hwrite]
  · intro k hk
    exact getProp_spreadInto_of_mem updated r k hwf hk
  · intro k hk
    exact getProp_spreadInto_of_not_mem updated r k hk
  · exact hread
  · simp
  · simp [hlt]
  · intro j hj
    exact List.getElem?_set_ne (Ne.symm hj)

theorem pacsUpdate_merges_witness :
    readPacsFile (diskAB true) = .ok (.arr ([recA, recB].map JVal.obj)) ∧
    ObjWF [("id", .num 1700000000001), ("ae", .str "NEW")] ∧
    (∃ r ∈ [recA, recB], strictEq (getProp r "id")
        (getProp [("id", .num 1700000000001), ("ae", .str "NEW")] "id") = true) ∧
    (diskAB true).writable = true ∧
    ∃ idx r merged d',
      [recA, recB][idx]? = some r ∧
      strictEq (getProp r "id")
        (getProp [("id", .num 1700000000001), ("ae", .str "NEW")] "id") = true ∧
      (∀ j r', j < idx → [recA, recB][j]? = some r' →
          strictEq (getProp r' "id")
            (getProp [("id", .num 1700000000001), ("ae", .str "NEW")] "id") = false) ∧
      pacsUpdate [("id", .num 1700000000001), ("ae", .str "NEW")] (diskAB true)
        = .ok ({ ok := true, record := some merged }, d') ∧
      (∀ k ∈ keys [("id", .num 1700000000001), ("ae", .str "NEW")],
          getProp merged k = getProp [("id", .num 1700000000001), ("ae", .str "NEW")] k) ∧
      (∀ k, k ∉ keys [("id", .num 1700000000001), ("ae", .str "NEW")] →
          getProp merged k = getProp r k) ∧
      pacsList d' = .ok (.arr (([recA, recB].set idx merged).map JVal.obj)) ∧
      ([recA, recB].set idx merged).length = [recA, recB].length ∧
      ([recA, recB].set idx merged)[idx]? = some merged ∧
      (∀ j, j ≠ idx → ([recA, recB].set idx merged)[j]? = [recA, recB][j]?) :=
  ⟨rfl, by simp [ObjWF, keys], ⟨recB, by simp, by decide⟩, rfl,
   pacsUpdate_merges (diskAB true) [recA, recB]
     [("id", .num 1700000000001), ("ae", .str "NEW")] rfl (by simp [ObjWF, keys])
     ⟨recB, by simp, by decide⟩ rfl⟩

/-- C2, the claim as stated fails when the file cannot be written: the update
of `ae` on the record `recA` replies `ok = true` with the merged record, and
`pacs-list` afterwards still answers the two old records. -/
theorem pacsUpdate_unwritable_list_unchanged :
    ∃ res d', pacsUpdate [("id", .num 1700000000000), ("ae", .str "NEW")] (diskAB false)
        = .ok (res, d') ∧
      res.ok = true ∧
      (res.record.bind fun m => getProp m "ae") = some (.str "NEW") ∧
      pacsList d' = .ok (.arr [.obj recA, .obj recB]) ∧
      getProp recA "ae" = some (.str "AE1") :=
  ⟨_, _, rfl, rfl, rfl, rfl, rfl⟩

/-! ## The store: save -/

theorem pacsSave_written (d : Disk) (L : List JVal) (now : Int) (p : Obj)
    (hstore : readPacsFile d = .ok (.arr L)) (hw : d.writable = true) :
    pacsSave now p d = .ok
      ({ ok := true, record := spreadInto [("id", .num now)] p },
       { file := some (.json (.arr (L ++ [.obj (spreadInto [("id", .num now)] p)]))),
         writable := true }) := by
  simp [pacsSave, hstore, writePacsFile, writeFileSync, hw]

theorem pacsSave_unwritten (d : Disk) (L : List JVal) (now : Int) (p : Obj)
    (hstore : readPacsFile d = .ok (.arr L)) (hw : d.writable = false) :
    pacsSave now p d = .ok
      ({ ok := true, record := spreadInto [("id", .num now)] p }, d) := by
  simp [pacsSave, hstore, writePacsFile, writeFileSync, hw]

theorem readPacsFile_json (v : JVal) (w : Bool) :
    readPacsFile { file := some (.json v), writable := w } = .ok v := rfl

theorem saveAll_appends (calls : List (Int × Obj)) (d : Disk) (L : List JVal)
    (hstore : readPacsFile d = .ok (.arr L)) (hw : d.writable = true) :
    ∃ d', saveAll calls d
        = .ok (calls.map (fun c => spreadInto [("id", .num c.1)] c.2), d') ∧
      readPacsFile d' = .ok (.arr (L ++
        (calls.map (fun c => spreadInto [("id", .num c.1)] c.2)).map JVal.obj)) := by
  induction calls generalizing d L with
  | nil => exact ⟨d, rfl, by simpa using hstore⟩
  | cons c rest ih =>
      obtain ⟨now, p⟩ := c
      have hstep := pacsSave_written d L now p hstore hw
      obtain ⟨d2, hrun, hread⟩ :=
        ih { file := some (.json (.arr (L ++ [.obj (spreadInto [("id", .num now)] p)]))),
             writable := true }
          (L ++ [JVal.obj (spreadInto [("id", .num now)] p)]) (readPacsFile_json _ _) rfl
      refine ⟨d2, ?_, ?_⟩
      · simp only [saveAll, hstep, hrun, List.map_cons]
      · simpa using hread

/-- C3 (as amended): when the store reads as the list `L` and the file write
succeeds, `pacs-save` replies `ok = true` with a record `r` that has an `id`
and, for each key of the payload, the payload's value, and `pacs-list`
afterwards answers `L` followed by `r`.  Hence a run of `save` calls, all
written, leaves `L` followed by exactly the returned records in call order;
from an empty store, exactly those records. -/
theorem pacsSave_appends (d : Disk) (L : List JVal) (now : Int) (p : Obj)
    (hstore : readPacsFile d = .ok (.arr L)) (hwf : ObjWF p)
    (hw : d.writable = true) :
    (∃ r d', pacsSave now p d = .ok ({ ok := true, record := r }, d') ∧
      (getProp r "id").isSome = true ∧
      (∀ k ∈ keys p, getProp r k = getProp p k) ∧
      pacsList d' = .ok (.arr (L ++ [.obj r]))) ∧
    (∀ calls : List (Int × Obj), ∃ rs d', saveAll calls d = .ok (rs, d') ∧
      rs.length = calls.length ∧
      pacsList d' = .ok (.arr (L ++ rs.map JVal.obj))) := by
  constructor
  · have hstep := pacsSave_written d L now p hstore hw
    refine ⟨_, _, hstep, ?_, ?_, rfl⟩
    · by_cases hid : "id" ∈ keys p
      · rw [getProp_spreadInto_of_mem p _ "id" hwf hid]
        exact getProp_isSome_of_mem p "id" hid
      · rw [getProp_spreadInto_of_not_mem p _ "id" hid]
        rfl
    · intro k hk
      exact getProp_spreadInto_of_mem p _ k hwf hk
  · intro calls
    obtain ⟨d', hrun, hread⟩ := saveAll_appends calls d L hstore hw
    exact ⟨_, d', hrun, by simp, hread⟩

theorem pacsSave_appends_witness :
    readPacsFile (diskNone true) = .ok (.arr []) ∧ ObjWF payloadA ∧
    (diskNone true).writable = true ∧
    (∃ r d', pacsSave 1700000000000 payloadA (diskNone true)
        = .ok ({ ok := true, record := r }, d') ∧
      (getProp r "id").isSome = true ∧
      (∀ k ∈ keys payloadA, getProp r k = getProp payloadA k) ∧
      pacsList d' = .ok (.arr ([] ++ [.obj r]))) ∧
    (∀ calls : List (Int × Obj), ∃ rs d', saveAll calls (diskNone true) = .ok (rs, d') ∧
      rs.length = calls.length ∧
      pacsList d' = .ok (.arr ([] ++ rs.map JVal.obj))) :=
  ⟨rfl, by simp [ObjWF, keys, payloadA], rfl,
   pacsSave_appends (diskNone true) [] 1700000000000 payloadA rfl
     (by simp [ObjWF, keys, payloadA]) rfl⟩

/-- C3, the claim as stated fails when the file cannot be written: on a store
without a file, `pacs-save` replies `ok = true` with the record `recA`, and
`pacs-list` afterwards answers the empty list, not the list holding `recA`. -/
theorem pacsSave_unwritable_list_unchanged :
    ∃ d', pacsSave 1700000000000 payloadA (diskNone false)
        = .ok ({ ok := true, record := recA }, d') ∧
      pacsList (diskNone false) = .ok (.arr []) ∧
      pacsList d' = .ok (.arr []) ∧
      pacsList d' ≠ .ok (.arr ([] ++ [.obj recA])) :=
  ⟨_, rfl, rfl, rfl, by intro h; cases h⟩

/-! ## The store: ids -/

theorem map_set_of_same {α β : Type} (f : α → β) (L : List α) (idx : Nat) (r m : α)
    (hget : L[idx]? = some r) (hf : f m = f r) : (L.set idx m).map f = L.map f := by
  induction L generalizing idx with
  | nil => rfl
  | cons a rest ih =>
      cases idx with
      | zero =>
          simp at hget
          subst hget
          simp [hf]
      | succ i =>
          simp at hget
          simp [ih i hget]

theorem pacsUpdate_keeps_ids (d : Disk) (L : List Obj) (updated : Obj)
    (hstore : readPacsFile d = .ok (.arr (L.map JVal.obj))) (hwf : ObjWF updated) :
    ∃ res d', ∃ L' : List Obj, pacsUpdate updated d = .ok (res, d') ∧
      readPacsFile d' = .ok (.arr (L'.map JVal.obj)) ∧
      d'.writable = d.writable ∧
      L'.map (fun r => getProp r "id") = L.map (fun r => getProp r "id") := by
  by_cases hex : ∃ r ∈ L, strictEq (getProp r "id") (getProp updated "id") = true
  · obtain ⟨idx, r, hget, hm, _, hfind⟩ := findIndex_first_match _ L hex
    have hitem : (L.map JVal.obj).getD idx .null = JVal.obj r := by
      simp [hget]
    have hid : getProp (spreadInto r updated) "id" = getProp r "id" := by
      by_cases hk : "id" ∈ keys updated
      · rw [getProp_spreadInto_of_mem updated r "id" hwf hk]
        exact (strictEq_eq _ _ hm).symm
      · exact getProp_spreadInto_of_not_mem updated r "id" hk
    cases hw : d.writable
    · refine ⟨{ ok := true, record := some (spreadInto r updated) }, d, L, ?_, hstore, hw, rfl⟩
      simp only [pacsUpdate, hstore, hfind, hitem, ownProps,
        writePacsFile_unwritable _ d hw]
    · obtain ⟨d', hwrite, hread, hw'⟩ :=
        readPacsFile_after_write ((L.set idx (spreadInto r updated)).map JVal.obj) d hw
      refine ⟨{ ok := true, record := some (spreadInto r updated) }, d',
        L.set idx (spreadInto r updated), ?_, hread, hw', ?_⟩
      · rw [List.map_set] at hwrite
        simp only [pacsUpdate, hstore, hfind, hitem, ownProps, hwrite]
      · exact map_set_of_same (fun r => getProp r "id") L idx r _ hget hid
  · have hno : ∀ r ∈ L, strictEq (getProp r "id") (getProp updated "id") = false := by
      intro r hr
      cases hs : strictEq (getProp r "id") (getProp updated "id")
      · rfl
      · exact absurd ⟨r, hr, hs⟩ hex
    refine ⟨{ ok := false, record := none }, d, L, ?_, hstore, rfl, rfl⟩
    simp [pacsUpdate, hstore, findIndex_no_match _ L hno]

theorem runCalls_ids (calls : List StoreCall) (d : Disk) (L : List Obj) (ts : List Int)
    (hstore : readPacsFile d = .ok (.arr (L.map JVal.obj)))
    (hids : L.map (fun r => getProp r "id") = ts.map (fun t => some (JVal.num t)))
    (hok : ∀ c ∈ calls, CallOk c) :
    ∃ d', ∃ L' : List Obj, runCalls calls d = .ok d' ∧
      readPacsFile d' = .ok (.arr (L'.map JVal.obj)) ∧
      L'.map (fun r => getProp r "id")
        = (if d.writable = true then ts ++ saveTimes calls else ts).map
            (fun t => some (JVal.num t)) := by
  induction calls generalizing d L ts with
  | nil =>
      refine ⟨d, L, rfl, hstore, ?_⟩
      simp [saveTimes, hids]
  | cons c rest ih =>
      have hrest : ∀ c' ∈ rest, CallOk c' := fun c' h => hok c' (List.mem_cons_of_mem _ h)
      have hc : CallOk c := hok c (List.mem_cons_self _ _)
      cases c with
      | save now p =>
          have hid : getProp (spreadInto [("id", JVal.num now)] p) "id" = some (JVal.num now) := by
            rw [getProp_spreadInto_of_not_mem p _ "id" hc]
            rfl
          cases hw : d.writable
          · have hstep := pacsSave_unwritten d (L.map JVal.obj) now p hstore hw
            obtain ⟨d', L', hrun, hread, hids'⟩ := ih d L ts hstore hids hrest
            refine ⟨d', L', ?_, hread, ?_⟩
            · simp only [runCalls, applyCall, hstep, hrun]
            · simpa [hw] using hids'
          · have hstep := pacsSave_written d (L.map JVal.obj) now p hstore hw
            obtain ⟨d', L', hrun, hread, hids'⟩ :=
              ih { file := some (.json (.arr (L.map JVal.obj ++
                      [JVal.obj (spreadInto [("id", JVal.num now)] p)]))), writable := true }
                (L ++ [spreadInto [("id", JVal.num now)] p]) (ts ++ [now])
                (by simp [readPacsFile_json]) (by simp [hids, hid]) hrest
            refine ⟨d', L', ?_, hread, ?_⟩
            · simp only [runCalls, applyCall, hstep, hrun]
            · simpa [saveTimes] using hids'
      | update p =>
          obtain ⟨res, d1, L1, hstep, hread1, hw1, hids1⟩ := pacsUpdate_keeps_ids d L p hstore hc
          obtain ⟨d', L', hrun, hread, hids'⟩ := ih d1 L1 ts hread1 (hids1.trans hids) hrest
          refine ⟨d', L', ?_, hread, ?_⟩
          · simp only [runCalls, applyCall, hstep, hrun]
          · simpa [saveTimes, hw1] using hids'

/-- C4 (as amended): in every store state reached from an empty store by any
sequence of `update` calls and of `save` calls whose payloads bring no `id` of
their own, the run does not throw and no two records share an `id`, provided
the clock readings of the `save` calls are pairwise different.  When the file
is writable the ids in the store are exactly those readings, in call order, so
two `save` calls with different readings leave two records with two different
ids; when it is not, the store stays empty. -/
theorem ids_unique_of_distinct_clock (calls : List StoreCall) (d : Disk)
    (hempty : readPacsFile d = .ok (.arr []))
    (hdist : (saveTimes calls).Pairwise (· ≠ ·))
    (hok : ∀ c ∈ calls, CallOk c) :
    ∃ d' items, runCalls calls d = .ok d' ∧ pacsList d' = .ok (.arr items) ∧
      (items.map recordId).Nodup ∧
      (d.writable = true →
        items.map recordId = (saveTimes calls).map (fun t => some (JVal.num t))) ∧
      (d.writable = false → items = []) := by
  obtain ⟨d', L', hrun, hread, hids⟩ := runCalls_ids calls d [] [] hempty rfl hok
  have hmap : (L'.map JVal.obj).map recordId = L'.map (fun r => getProp r "id") := by
    simp [List.map_map, Function.comp_def, recordId]
  have hinj : Function.Injective (fun t : Int => some (JVal.num t)) := by
    intro a b hab
    simpa using hab
  refine ⟨d', L'.map JVal.obj, hrun, hread, ?_, ?_, ?_⟩
  · rw [hmap, hids]
    cases hw : d.writable
    · simp
    · simpa using List.Nodup.map hinj hdist
  · intro hw
    rw [hmap, hids]
    simp [hw]
  · intro hw
    have hnil : L'.map (fun r => getProp r "id") = [] := by
      rw [hids]
      simp [hw]
    have : L' = [] := by simpa using hnil
    simp [this]

theorem ids_unique_of_distinct_clock_witness :
    readPacsFile (diskNone true) = .ok (.arr []) ∧
    (saveTimes [.save 1700000000005 payloadA,
      .update [("id", .num 1700000000005), ("ae", .str "NEW")],
      .save 1700000000001 payloadB]).Pairwise (· ≠ ·) ∧
    (∀ c ∈ [StoreCall.save 1700000000005 payloadA,
      .update [("id", .num 1700000000005), ("ae", .str "NEW")],
      .save 1700000000001 payloadB], CallOk c) ∧
    ∃ d' items, runCalls [.save 1700000000005 payloadA,
        .update [("id", .num 1700000000005), ("ae", .str "NEW")],
        .save 1700000000001 payloadB] (diskNone true) = .ok d' ∧
      pacsList d' = .ok (.arr items) ∧ (items.map recordId).Nodup ∧
      ((diskNone true).writable = true →
        items.map recordId = (saveTimes [.save 1700000000005 payloadA,
          .update [("id", .num 1700000000005), ("ae", .str "NEW")],
          .save 1700000000001 payloadB]).map (fun t => some (JVal.num t))) ∧
      ((diskNone true).writable = false → items = []) :=
  ⟨rfl, by simp [saveTimes], by simp [CallOk, ObjWF, keys, payloadA, payloadB],
   ids_unique_of_distinct_clock _ (diskNone true) rfl (by simp [saveTimes])
     (by simp [CallOk, ObjWF, keys, payloadA, payloadB])⟩

/-- C4, the claim as stated fails: two `save` calls that read the same clock
value leave two records with the same `id` in the store. -/
theorem two_saves_same_clock_share_id :
    ∃ d' r1 r2, runCalls [.save 1700000000000 payloadA, .save 1700000000000 payloadB]
        (diskNone true) = .ok d' ∧
      pacsList d' = .ok (.arr [r1, r2]) ∧
      recordId r1 = some (.num 1700000000000) ∧
      recordId r2 = some (.num 1700000000000) ∧
      ¬ ([r1, r2].map recordId).Nodup :=
  ⟨_, _, _, rfl, rfl, rfl, rfl, by simp [recordId, spreadInto, setProp, getProp, payloadA, payloadB]⟩

/-! ## The store: listing and write failures -/

/-- C5 (as amended): `pacs-list` never throws; it answers the empty list when
the file is absent or unreadable and when its text is not valid JSON; when the
text is valid JSON it answers the parsed value as it is, array or not. -/
theorem pacsList_absorbs_read_failures (w : Bool) :
    (∀ d : Disk, ∃ v, pacsList d = .ok v) ∧
    pacsList { file := none, writable := w } = .ok (.arr []) ∧
    pacsList { file := some .invalid, writable := w } = .ok (.arr []) ∧
    (∀ v : JVal, pacsList { file := some (.json v), writable := w } = .ok v) :=
  ⟨readPacsFile_total, rfl, rfl, fun _ => rfl⟩

/-- C5, the claim as stated fails on a file whose text is valid JSON but not
an array of records: `pacs-list` answers the parsed object, not the empty
list. -/
theorem pacsList_returns_parsed_non_array :
    pacsList diskObject = .ok (.obj [("a", .num 1)]) ∧
    pacsList diskObject ≠ .ok (.arr []) :=
  ⟨rfl, by intro h; cases h⟩

/-- C6: the code at the failing input.  With a file that cannot be written,
`writePacsFile` returns `false`, and still `pacs-save` and `pacs-update` reply
`ok = true`, while the store is left as it was. -/
theorem write_failure_replied_as_ok :
    writePacsFile [.obj recA] (diskNone false) = .ok (false, diskNone false) ∧
    pacsSave 1700000000000 payloadA (diskNone false)
      = .ok ({ ok := true, record := recA }, diskNone false) ∧
    (∃ m, pacsUpdate [("id", .num 1700000000000), ("ae", .str "NEW")] (diskAB false)
      = .ok ({ ok := true, record := some m }, diskAB false)) :=
  ⟨rfl, rfl, _, rfl⟩

/-! ## Viewer bridge and status line -/

/-- C7: the code at the failing inputs.  When no icon matches, when there is
no viewer and when the injected script throws, `trigger-eye` replies
`ok = false` and the status line shows the success text; when there is no
viewer, when navigation fails and when `loadURL` throws, `load-website`
replies `success = true` and the status line shows the success text. -/
theorem viewer_failure_shown_as_success :
    triggerEye (some plainPage) = .ok { ok := false, error := none } ∧
    eyeBtnClick (triggerEye (some plainPage))
      = { message := "Triggered image viewer", isError := false } ∧
    eyeBtnClick (triggerEye none)
      = { message := "Triggered image viewer", isError := false } ∧
    triggerEye (some brokenViewer)
      = .ok { ok := false, error := some "Script failed to execute" } ∧
    eyeBtnClick (triggerEye (some brokenViewer))
      = { message := "Triggered image viewer", isError := false } ∧
    rendererLoadWebsite "https://example.org" true (handleLoadWebsite none)
      = { message := "Website loaded successfully", isError := false } ∧
    rendererLoadWebsite "https://example.org" true (handleLoadWebsite (some brokenViewer))
      = { message := "Website loaded successfully", isError := false } ∧
    loadWebsite (some throwingViewer) "https://example.org"
      = ["Error loading website: ERR_INVALID_URL"] ∧
    rendererLoadWebsite "https://example.org" true (handleLoadWebsite (some throwingViewer))
      = { message := "Website loaded successfully", isError := false } :=
  ⟨rfl, rfl, rfl, rfl, rfl, by decide, by decide, rfl, by decide⟩

/-! ## Record table -/

theorem editingCount_refreshPacsList (listing : Listing) (hl : listing.plain = true) :
    editingCount (refreshPacsList listing) = 0 := by
  cases listing with
  | failed => rfl
  | records rs parsed =>
      cases rs with
      | nil => rfl
      | cons r rest =>
          have hall : (r :: rest).all RowData.plain = true := hl
          simp only [refreshPacsList, hall, if_true]
          simp [editingCount, List.filter_map, Function.comp_def]

theorem refreshPacsList_markup (parsed : List Row) :
    refreshPacsList (.records [rowMarkup] parsed) = parsed := by
  have h : [rowMarkup].all RowData.plain = false := by decide
  simp [refreshPacsList, h]

theorem editingCount_startEditPacs (id : String) (rows : List Row) :
    editingCount (startEditPacs id rows) ≤ editingCount rows + 1 := by
  induction rows with
  | nil => simp [startEditPacs, editingCount]
  | cons r rest ih =>
      by_cases h : r.actions = .editButton id
      · cases he : r.editing <;> simp [startEditPacs, editingCount, h, List.filter_cons, he]
      · cases he : r.editing
        · simpa [startEditPacs, editingCount, h, List.filter_cons, he] using ih
        · simp only [editingCount] at ih
          simp only [startEditPacs, editingCount, h, List.filter_cons, he, if_true, if_false,
            List.length_cons]
          omega

theorem editingCount_tableStep (rows : List Row) (a : TableAction) (ha : a.plain = true) :
    editingCount (tableStep rows a) ≤
      editingCount rows + (match a with | .clickEdit _ => 1 | _ => 0) := by
  cases a with
  | clickEdit i =>
      simp only [tableStep]
      split
      · exact editingCount_startEditPacs _ rows
      · omega
  | clickSave i filled updateOk listing =>
      have hl : listing.plain = true := ha
      simp only [tableStep]
      split
      · split
        · simp [editingCount_refreshPacsList listing hl]
        · omega
      · omega
  | clickCancel i listing =>
      have hl : listing.plain = true := ha
      simp only [tableStep]
      split
      · simp [editingCount_refreshPacsList listing hl]
      · omega

theorem editingCount_tableRun (acts : List TableAction) (rows : List Row)
    (ha : ∀ a ∈ acts, a.plain = true) :
    editingCount (tableRun rows acts) ≤ editingCount rows + editClicks acts := by
  induction acts generalizing rows with
  | nil => simp [tableRun, editClicks]
  | cons a rest ih =>
      have hstep := editingCount_tableStep rows a (ha a (List.mem_cons_self _ _))
      have hrest := ih (tableStep rows a) (fun a' h => ha a' (List.mem_cons_of_mem _ h))
      simp only [tableRun, List.foldl_cons] at hrest ⊢
      cases a <;> simp only [editClicks] at * <;> omega

/-- C8 (as amended): rows enter the editing state one by one and nothing
limits how many are in it.  For records whose texts hold no markup: a freshly
rendered list has no row in the editing state; a click on an edit button adds
at most one, whatever the table; a click on a cancel button, and a click on a
save button whose update succeeds, render the list anew, so no row is in the
editing state afterwards; a save that fails, or with an empty input, leaves
the table as it is.  Hence after any sequence of actions on a rendered list
the number of rows in the editing state is at most the number of edit clicks
of the sequence: 0 or 1 as long as there was at most one. -/
theorem editing_rows_bounded_by_edit_clicks (listing : Listing) (acts : List TableAction)
    (hl : listing.plain = true) (ha : ∀ a ∈ acts, a.plain = true) :
    editingCount (refreshPacsList listing) = 0 ∧
    editingCount (tableRun (refreshPacsList listing) acts) ≤ editClicks acts ∧
    (∀ (rows : List Row) (i : Nat),
      editingCount (tableStep rows (.clickEdit i)) ≤ editingCount rows + 1) ∧
    (∀ (rows : List Row) (i : Nat) (e : Bool) (id : String) (l : Listing),
      l.plain = true →
      rows.get? i = some { editing := e, actions := .saveCancel id } →
      editingCount (tableStep rows (.clickCancel i l)) = 0 ∧
      editingCount (tableStep rows (.clickSave i true true l)) = 0 ∧
      tableStep rows (.clickSave i true false l) = rows ∧
      tableStep rows (.clickSave i false true l) = rows) := by
  refine ⟨editingCount_refreshPacsList listing hl, ?_, ?_, ?_⟩
  · have h := editingCount_tableRun acts (refreshPacsList listing) ha
    rw [editingCount_refreshPacsList listing hl] at h
    omega
  · intro rows i
    exact editingCount_tableStep rows (.clickEdit i) rfl
  · intro rows i e id l hpl hrow
    simp only [tableStep, hrow, editingCount_refreshPacsList l hpl, Bool.and_self,
      Bool.and_false, Bool.and_true, if_true, and_self]
    simp

theorem editing_rows_bounded_by_edit_clicks_witness :
    (Listing.records [rowA, rowB] []).plain = true ∧
    (∀ a ∈ [TableAction.clickEdit 0, .clickCancel 0 (.records [rowA, rowB] []),
        .clickEdit 1], a.plain = true) ∧
    (editingCount (refreshPacsList (.records [rowA, rowB] [])) = 0 ∧
     editingCount (tableRun (refreshPacsList (.records [rowA, rowB] []))
        [.clickEdit 0, .clickCancel 0 (.records [rowA, rowB] []), .clickEdit 1])
       ≤ editClicks [.clickEdit 0, .clickCancel 0 (.records [rowA, rowB] []), .clickEdit 1] ∧
     (∀ (rows : List Row) (i : Nat),
       editingCount (tableStep rows (.clickEdit i)) ≤ editingCount rows + 1) ∧
     (∀ (rows : List Row) (i : Nat) (e : Bool) (id : String) (l : Listing),
       l.plain = true →
       rows.get? i = some { editing := e, actions := .saveCancel id } →
       editingCount (tableStep rows (.clickCancel i l)) = 0 ∧
       editingCount (tableStep rows (.clickSave i true true l)) = 0 ∧
       tableStep rows (.clickSave i true false l) = rows ∧
       tableStep rows (.clickSave i false true l) = rows)) ∧
    tableRun (refreshPacsList (.records [rowA, rowB] []))
        [.clickEdit 0, .clickCancel 0 (.records [rowA, rowB] []), .clickEdit 1]
      = [{ editing := false, actions := .editButton "1700000000000" },
         { editing := true, actions := .saveCancel "1700000000001" }] :=
  ⟨by decide, by decide,
   editing_rows_bounded_by_edit_clicks (.records [rowA, rowB] [])
     [.clickEdit 0, .clickCancel 0 (.records [rowA, rowB] []), .clickEdit 1]
     (by decide) (by decide),
   by decide⟩

/-- C8, the claim as stated fails: on a rendered list of two records, a click
on the edit button of the first row and then on that of the second leaves two
rows in the editing state. -/
theorem two_rows_editing :
    tableRun (refreshPacsList (.records [rowA, rowB] []))
        [.clickEdit 0, .clickEdit 1]
      = [{ editing := true, actions := .saveCancel "1700000000000" },
         { editing := true, actions := .saveCancel "1700000000001" }] ∧
    editingCount (tableRun (refreshPacsList (.records [rowA, rowB] []))
        [.clickEdit 0, .clickEdit 1]) = 2 :=
  ⟨by decide, by decide⟩

/-! ## Preview geometry -/

/-- C9 (as amended): with a window of content bounds `b` and a viewer,
`preview-suspend` replies `ok = true` and sets the viewer's bounds to width 0
and height 0 at `x = b.width`, `y = 0`; a following `preview-resume` replies
`ok = true` and sets them to `x = 400`, `y = 0`, `width = b.width - 400`,
`height = b.height`, which is what `resizePreview` sets; so suspend followed
by resume restores the bounds the viewer had before whenever those were the
layout bounds for `b`.  Without a window or without a viewer both reply
`ok = false` and change nothing. -/
theorem suspend_resume_geometry (b r : Rect) (w v : Option Rect) :
    previewSuspend { mainWindow := some b, previewView := some r }
      = ({ ok := true },
         { mainWindow := some b, previewView := some (Rect.mk b.width 0 0 0) }) ∧
    previewResume (previewSuspend { mainWindow := some b, previewView := some r }).2
      = ({ ok := true },
         { mainWindow := some b,
           previewView := some (Rect.mk 400 0 (b.width - 400) b.height) }) ∧
    (previewResume (previewSuspend { mainWindow := some b, previewView := some r }).2).2
      = resizePreview { mainWindow := some b, previewView := some r } ∧
    (previewResume (previewSuspend
        (resizePreview { mainWindow := some b, previewView := some r })).2).2
      = resizePreview { mainWindow := some b, previewView := some r } ∧
    previewSuspend { mainWindow := none, previewView := v }
      = ({ ok := false }, { mainWindow := none, previewView := v }) ∧
    previewResume { mainWindow := none, previewView := v }
      = ({ ok := false }, { mainWindow := none, previewView := v }) ∧
    previewSuspend { mainWindow := w, previewView := none }
      = ({ ok := false }, { mainWindow := w, previewView := none }) ∧
    previewResume { mainWindow := w, previewView := none }
      = ({ ok := false }, { mainWindow := w, previewView := none }) := by
  refine ⟨rfl, rfl, rfl, rfl, rfl, rfl, ?_, ?_⟩
  · cases w <;> rfl
  · cases w <;> rfl

/-- C9, the claim as stated fails when the viewer is already suspended: after
a first suspend the bounds are collapsed, and a second suspend followed by a
resume at the same window size leaves the layout bounds, not the collapsed
bounds the viewer had before that suspend. -/
theorem second_suspend_not_restored :
    (previewSuspend (resizePreview
        { mainWindow := some windowBounds, previewView := some windowBounds })).2
      = { mainWindow := some windowBounds, previewView := some (Rect.mk 1400 0 0 0) } ∧
    (previewResume (previewSuspend
        { mainWindow := some windowBounds, previewView := some (Rect.mk 1400 0 0 0) }).2).2
      = { mainWindow := some windowBounds, previewView := some (Rect.mk 400 0 1000 900) } ∧
    (previewResume (previewSuspend
        { mainWindow := some windowBounds, previewView := some (Rect.mk 1400 0 0 0) }).2).2
      ≠ { mainWindow := some windowBounds, previewView := some (Rect.mk 1400 0 0 0) } :=
  ⟨by decide, by decide, by decide⟩

/-! ## The store: update with a shared id -/

/-- C11 (as amended): on a store that reads as the list of records `L`, some
of which have the `id` of the payload, and when the file write succeeds,
`pacs-update` modifies only the first such record in list order and returns
it: the reply carries the record merged from that first match (each key of the
payload with the payload's value, each other key with the record's value), the
list that `pacs-list` answers afterwards holds the merged record at the place
of the first match, and every other record, so every later record with the
same `id` and every record with another `id`, stands unchanged at its place;
the length is the same. -/
theorem pacsUpdate_first_match_only (d : Disk) (L : List Obj) (updated : Obj)
    (hstore : readPacsFile d = .ok (.arr (L.map JVal.obj)))
    (hwf : ObjWF updated)
    (hex : ∃ r ∈ L, strictEq (getProp r "id") (getProp updated "id") = true)
    (hw : d.writable = true) :
    ∃ (idx : Nat) (r merged : Obj) (d' : Disk) (L' : List Obj),
      L[idx]? = some r ∧
      strictEq (getProp r "id") (getProp updated "id") = true ∧
      (∀ (j : Nat) (r' : Obj), j < idx → L[j]? = some r' →
          strictEq (getProp r' "id") (getProp updated "id") = false) ∧
      pacsUpdate updated d = .ok ({ ok := true, record := some merged }, d') ∧
      (∀ k ∈ keys updated, getProp merged k = getProp updated k) ∧
      (∀ k, k ∉ keys updated → getProp merged k = getProp r k) ∧
      pacsList d' = .ok (.arr (L'.map JVal.obj)) ∧
      L'.length = L.length ∧
      L'[idx]? = some merged ∧
      (∀ (j : Nat) (r' : Obj), j ≠ idx → L[j]? = some r' → L'[j]? = some r') := by
  obtain ⟨idx, r, hget, hm, hfirst, hfind⟩ := findIndex_first_match _ L hex
  have hlt : idx < L.length := by
    rcases Nat.lt_or_ge idx L.length with h | h
    · exact h
    · rw [List.getElem?_eq_none h] at hget
      cases hget
  have hitem : (L.map JVal.obj).getD idx .null = JVal.obj r := by
    simp [hget]
  obtain ⟨d', hwrite, hread, _⟩ :=
    readPacsFile_after_write ((L.set idx (spreadInto r updated)).map JVal.obj) d hw
  refine ⟨idx, r, spreadInto r updated, d', L.set idx (spreadInto r updated), hget, hm,
    hfirst, ?_, ?_, ?_, hread, by simp, by simp [hlt], ?_⟩
  · rw [List.map_set] at hwrite
    simp only [pacsUpdate, hstore, hfind, hitem, ownProps, hwrite]
  · intro k hk
    exact getProp_spreadInto_of_mem updated r k hwf hk
  · intro k hk
    exact getProp_spreadInto_of_not_mem updated r k hk
  · intro j r' hj hr'
    rw [List.getElem?_set_ne (Ne.symm hj)]
    exact hr'

theorem pacsUpdate_first_match_only_witness :
    readPacsFile (diskDup true) = .ok (.arr ([recB, recA, recA2].map JVal.obj)) ∧
    ObjWF [("id", .num 1700000000000), ("ae", .str "NEW")] ∧
    (∃ r ∈ [recB, recA, recA2], strictEq (getProp r "id")
        (getProp [("id", .num 1700000000000), ("ae", .str "NEW")] "id") = true) ∧
    (diskDup true).writable = true ∧
    (∃ (idx : Nat) (r merged : Obj) (d' : Disk) (L' : List Obj),
      [recB, recA, recA2][idx]? = some r ∧
      strictEq (getProp r "id")
        (getProp [("id", .num 1700000000000), ("ae", .str "NEW")] "id") = true ∧
      (∀ (j : Nat) (r' : Obj), j < idx → [recB, recA, recA2][j]? = some r' →
          strictEq (getProp r' "id")
            (getProp [("id", .num 1700000000000), ("ae", .str "NEW")] "id") = false) ∧
      pacsUpdate [("id", .num 1700000000000), ("ae", .str "NEW")] (diskDup true)
        = .ok ({ ok := true, record := some merged }, d') ∧
      (∀ k ∈ keys [("id", .num 1700000000000), ("ae", .str "NEW")],
          getProp merged k = getProp [("id", .num 1700000000000), ("ae", .str "NEW")] k) ∧
      (∀ k, k ∉ keys [("id", .num 1700000000000), ("ae", .str "NEW")] →
          getProp merged k = getProp r k) ∧
      pacsList d' = .ok (.arr (L'.map JVal.obj)) ∧
      L'.length = [recB, recA, recA2].length ∧
      L'[idx]? = some merged ∧
      (∀ (j : Nat) (r' : Obj), j ≠ idx → [recB, recA, recA2][j]? = some r' →
          L'[j]? = some r')) ∧
    (∃ d', pacsUpdate [("id", .num 1700000000000), ("ae", .str "NEW")] (diskDup true)
        = .ok ({ ok := true,
                 record := some [("id", .num 1700000000000), ("node", .str "A"),
                   ("ip", .str "10.0.0.1"), ("port", .str "104"), ("ae", .str "NEW")] }, d') ∧
      pacsList d' = .ok (.arr [.obj recB,
        .obj [("id", .num 1700000000000), ("node", .str "A"),
              ("ip", .str "10.0.0.1"), ("port", .str "104"), ("ae", .str "NEW")],
        .obj recA2])) :=
  ⟨rfl, by simp [ObjWF, keys], ⟨recA, by simp, by decide⟩, rfl,
   pacsUpdate_first_match_only (diskDup true) [recB, recA, recA2]
     [("id", .num 1700000000000), ("ae", .str "NEW")] rfl (by simp [ObjWF, keys])
     ⟨recA, by simp, by decide⟩ rfl,
   ⟨_, rfl, rfl⟩⟩

/-- C11, the claim as stated fails when the file cannot be written: with two
records sharing the `id` of the payload, `pacs-update` replies `ok = true`
with the record merged from the first of them, yet the first match in the list
that `pacs-list` answers afterwards is the unmodified `recA`, with its old
`ae`: no record in the store has been modified. -/
theorem pacsUpdate_unwritable_first_match_unmodified :
    ∃ res d', pacsUpdate [("id", .num 1700000000000), ("ae", .str "NEW")] (diskDup false)
        = .ok (res, d') ∧
      res.ok = true ∧
      (res.record.bind fun m => getProp m "ae") = some (.str "NEW") ∧
      (res.record.bind fun m => getProp m "node") = some (.str "A") ∧
      pacsList d' = .ok (.arr [.obj recB, .obj recA, .obj recA2]) ∧
      getProp recA "ae" = some (.str "AE1") :=
  ⟨_, _, rfl, rfl, rfl, rfl, rfl, rfl⟩

/-! ## The store: the id of a saved record -/

theorem getMember_setMember (o : WObj) (k : String) (w : WVal) (k' : String) :
    getMember (setMember o k w) k' = if k = k' then some w else getMember o k' := by
  induction o with
  | nil => simp [setMember, getMember]
  | cons kw rest ih =>
      obtain ⟨k0, w0⟩ := kw
      by_cases h0 : k0 = k
      · subst h0
        by_cases h1 : k0 = k' <;> simp [setMember, getMember, h1]
      · by_cases h1 : k0 = k'
        · subst h1
          have h2 : ¬ k = k0 := fun h => h0 h.symm
          simp [setMember, getMember, h0, h2]
        · simp [setMember, getMember, h0, h1, ih]

theorem getMember_spreadMembers_of_not_mem (src : WObj) (target : WObj) (k : String)
    (h : k ∉ memberKeys src) : getMember (spreadMembers target src) k = getMember target k := by
  induction src generalizing target with
  | nil => rfl
  | cons kw rest ih =>
      obtain ⟨k0, w0⟩ := kw
      simp only [memberKeys, List.map_cons, List.mem_cons, not_or] at h
      have h0 : ¬ k0 = k := fun e => h.1 e.symm
      have step : spreadMembers target ((k0, w0) :: rest) =
          spreadMembers (setMember target k0 w0) rest := rfl
      rw [step, ih (setMember target k0 w0) h.2, getMember_setMember]
      simp [h0]

theorem getMember_spreadMembers_of_mem (src : WObj) (target : WObj) (k : String)
    (hwf : (memberKeys src).Nodup) (h : k ∈ memberKeys src) :
    getMember (spreadMembers target src) k = getMember src k := by
  induction src generalizing target with
  | nil => simp [memberKeys] at h
  | cons kw rest ih =>
      obtain ⟨k0, w0⟩ := kw
      have step : spreadMembers target ((k0, w0) :: rest) =
          spreadMembers (setMember target k0 w0) rest := rfl
      simp only [memberKeys, List.map_cons, List.nodup_cons] at hwf
      by_cases h0 : k0 = k
      · subst h0
        rw [step, getMember_spreadMembers_of_not_mem rest _ k0 hwf.1, getMember_setMember]
        simp [getMember]
      · simp only [memberKeys, List.map_cons, List.mem_cons] at h
        rcases h with h | h
        · exact absurd h.symm h0
        · rw [step, ih (setMember target k0 w0) hwf.2 h]
          simp [getMember, h0]

theorem mem_memberKeys_setMember (o : WObj) (k : String) (w : WVal) (k' : String) :
    k' ∈ memberKeys (setMember o k w) ↔ k' = k ∨ k' ∈ memberKeys o := by
  induction o with
  | nil => simp [setMember, memberKeys]
  | cons kw rest ih =>
      obtain ⟨k0, w0⟩ := kw
      by_cases h0 : k0 = k
      · subst h0
        simp [setMember, memberKeys]
      · simp only [memberKeys] at ih
        simp only [setMember, h0, if_false, memberKeys, List.map_cons, List.mem_cons, ih]
        tauto

theorem nodup_memberKeys_setMember (o : WObj) (k : String) (w : WVal)
    (h : (memberKeys o).Nodup) : (memberKeys (setMember o k w)).Nodup := by
  induction o with
  | nil => simp [setMember, memberKeys]
  | cons kw rest ih =>
      obtain ⟨k0, w0⟩ := kw
      have h' : k0 ∉ memberKeys rest ∧ (memberKeys rest).Nodup := by
        simpa [memberKeys] using h
      by_cases h0 : k0 = k
      · subst h0
        simpa [setMember, memberKeys] using h
      · have hnot : k0 ∉ memberKeys (setMember rest k w) := by
          rw [mem_memberKeys_setMember]
          rintro (e | e)
          · exact h0 e
          · exact h'.1 e
        have hrest := ih h'.2
        simp only [setMember, h0, if_false]
        exact List.nodup_cons.mpr ⟨hnot, hrest⟩

theorem nodup_memberKeys_spreadMembers (src : WObj) (target : WObj)
    (h : (memberKeys target).Nodup) : (memberKeys (spreadMembers target src)).Nodup := by
  induction src generalizing target with
  | nil => exact h
  | cons kw rest ih =>
      exact ih (setMember target kw.1 kw.2) (nodup_memberKeys_setMember target kw.1 kw.2 h)

theorem keys_stringifyObj (r : WObj) (o : Obj) (h : stringifyObj r = some o) :
    ∀ k ∈ keys o, k ∈ memberKeys r := by
  induction r generalizing o with
  | nil =>
      simp [stringifyObj] at h
      subst h
      simp [keys]
  | cons kw rest ih =>
      obtain ⟨k0, w0⟩ := kw
      simp only [stringifyObj] at h
      cases hi : jsonImage w0 <;> cases hs : stringifyObj rest <;> simp [hi, hs] at h
      · subst h
        intro k hk
        exact List.mem_cons_of_mem _ (ih _ hs k hk)
      · subst h
        intro k hk
        simp only [keys, List.map_cons, List.mem_cons] at hk
        rcases hk with hk | hk
        · simp [memberKeys, hk]
        · exact List.mem_cons_of_mem _ (ih _ hs k hk)

theorem getProp_stringifyObj (r : WObj) (o : Obj) (k : String)
    (hwf : (memberKeys r).Nodup) (h : stringifyObj r = some o) :
    getProp o k = storedValue (getMember r k) := by
  induction r generalizing o with
  | nil =>
      simp [stringifyObj] at h
      subst h
      rfl
  | cons kw rest ih =>
      obtain ⟨k0, w0⟩ := kw
      have hwf' : k0 ∉ memberKeys rest ∧ (memberKeys rest).Nodup := by
        simpa [memberKeys] using hwf
      simp only [stringifyObj] at h
      cases hi : jsonImage w0 <;> cases hs : stringifyObj rest <;> simp [hi, hs] at h
      · rename_i o'
        subst h
        by_cases h0 : k0 = k
        · subst h0
          have hnone : getProp o' k0 = none :=
            getProp_eq_none_of_not_mem o' k0
              (fun hk => hwf'.1 (keys_stringifyObj rest o' hs k0 hk))
          simp [getMember, storedValue, hi, hnone]
        · simp [getMember, h0, ih _ hwf'.2 hs]
      · subst h
        by_cases h0 : k0 = k
        · subst h0
          simp [getMember, getProp, storedValue, hi]
        · simp [getMember, getProp, h0, ih _ hwf'.2 hs]

theorem spreadMembers_toWire (p : Obj) (t : Obj) :
    spreadMembers (toWire t) (toWire p) = toWire (spreadInto t p) := by
  have hset : ∀ (o : Obj) (k : String) (v : JVal),
      setMember (toWire o) k (.json v) = toWire (setProp o k v) := by
    intro o k v
    induction o with
    | nil => rfl
    | cons kv rest ih =>
        obtain ⟨k0, v0⟩ := kv
        by_cases h0 : k0 = k
        · simp [toWire, setMember, setProp, h0]
        · simp only [toWire] at ih
          simp [toWire, setMember, setProp, h0, ih]
  induction p generalizing t with
  | nil => rfl
  | cons kv rest ih =>
      obtain ⟨k0, v0⟩ := kv
      have step : spreadMembers (toWire t) (toWire ((k0, v0) :: rest)) =
          spreadMembers (setMember (toWire t) k0 (.json v0)) (toWire rest) := rfl
      rw [step, hset, ih]
      rfl

theorem stringifyObj_toWire (o : Obj) : stringifyObj (toWire o) = some o := by
  induction o with
  | nil => rfl
  | cons kv rest ih =>
      obtain ⟨k0, v0⟩ := kv
      simp only [toWire] at ih
      simp [toWire, stringifyObj, jsonImage, ih]

/-- On a payload of JSON values the handler on delivered payloads does what
`pacsSave` does. -/
theorem pacsSaveWire_toWire (now : Int) (p : Obj) (d : Disk) :
    pacsSaveWire now (toWire p) d =
      match pacsSave now p d with
      | .error e => .error e
      | .ok (res, d') => .ok ({ ok := res.ok, record := toWire res.record }, d') := by
  have hsp : spreadMembers [("id", WVal.json (.num now))] (toWire p)
      = toWire (spreadInto [("id", JVal.num now)] p) :=
    spreadMembers_toWire p [("id", JVal.num now)]
  obtain ⟨v, hv⟩ := readPacsFile_total d
  simp only [pacsSaveWire, pacsSave, hv, hsp, writePacsFileWire, stringifyObj_toWire]
  cases v <;> try rfl
  rename_i items
  obtain ⟨out, hout⟩ : ∃ out, writePacsFile
      (items ++ [JVal.obj (spreadInto [("id", JVal.num now)] p)]) d = .ok out := by
    unfold writePacsFile
    split <;> exact ⟨_, rfl⟩
  simp only [hout]

/-- C10 (as amended): on a store that reads as a list, `pacs-save` replies
with a record whose `id` is the payload's `id`, of whatever kind, when the
payload has an `id` member, and the clock reading only when it has none.  The
`id` stored in the file is what `JSON.stringify` makes of the replied `id`,
once the record can be written as JSON and the file write succeeds: the same
value for a JSON value, `null` for `NaN` and the infinities, no `id` for
`undefined`.  When `JSON.stringify` throws or the file cannot be written the
store is left as it was. -/
theorem pacsSave_id_from_payload (d : Disk) (L : List JVal) (now : Int) (p : WObj)
    (hstore : readPacsFile d = .ok (.arr L)) (hwf : (memberKeys p).Nodup) :
    ∃ r d', pacsSaveWire now p d = .ok ({ ok := true, record := r }, d') ∧
      ("id" ∈ memberKeys p → getMember r "id" = getMember p "id") ∧
      ("id" ∉ memberKeys p → getMember r "id" = some (.json (.num now))) ∧
      (∀ o, stringifyObj r = some o → d.writable = true →
        pacsList d' = .ok (.arr (L ++ [.obj o])) ∧
        getProp o "id" = storedValue (getMember r "id")) ∧
      (stringifyObj r = none → d' = d) ∧
      (d.writable = false → d' = d) ∧
      (∀ v, storedValue (some (.json v)) = some v) ∧
      storedValue (some .nan) = some .null ∧
      (∀ negative, storedValue (some (.infinity negative)) = some .null) ∧
      storedValue (some .undefined) = none := by
  have hin : "id" ∈ memberKeys p →
      getMember (spreadMembers [("id", WVal.json (.num now))] p) "id" = getMember p "id" :=
    fun h => getMember_spreadMembers_of_mem p _ "id" hwf h
  have hout : "id" ∉ memberKeys p →
      getMember (spreadMembers [("id", WVal.json (.num now))] p) "id"
        = some (.json (.num now)) := by
    intro h
    rw [getMember_spreadMembers_of_not_mem p _ "id" h]
    rfl
  have hnd : (memberKeys (spreadMembers [("id", WVal.json (.num now))] p)).Nodup :=
    nodup_memberKeys_spreadMembers p _ (by simp [memberKeys])
  cases hs : stringifyObj (spreadMembers [("id", WVal.json (.num now))] p) with
  | none =>
      refine ⟨_, d, ?_, hin, hout, ?_, fun _ => rfl, fun _ => rfl,
        fun _ => rfl, rfl, fun _ => rfl, rfl⟩
      · simp only [pacsSaveWire, hstore, writePacsFileWire, hs]
      · intro o ho
        rw [hs] at ho
        cases ho
  | some o =>
      cases hw : d.writable
      · refine ⟨_, d, ?_, hin, hout, ?_, fun _ => rfl, fun _ => rfl,
          fun _ => rfl, rfl, fun _ => rfl, rfl⟩
        · simp only [pacsSaveWire, hstore, writePacsFileWire, hs,
            writePacsFile_unwritable _ d hw]
        · intro o' _ h
          cases h
      · obtain ⟨d', hwrite, hread, _⟩ := readPacsFile_after_write (L ++ [JVal.obj o]) d hw
        refine ⟨_, d', ?_, hin, hout, ?_, ?_, ?_, fun _ => rfl, rfl, fun _ => rfl, rfl⟩
        · simp only [pacsSaveWire, hstore, writePacsFileWire, hs, hwrite]
        · intro o' ho' _
          rw [hs] at ho'
          cases ho'
          exact ⟨hread, getProp_stringifyObj _ o "id" hnd hs⟩
        · intro h
          rw [hs] at h
          cases h
        · intro h
          cases h

theorem pacsSave_id_from_payload_witness :
    readPacsFile (diskAB true) = .ok (.arr [.obj recA, .obj recB]) ∧
    (memberKeys [("id", WVal.json (.str "mine")), ("node", .json (.str "C"))]).Nodup ∧
    (∃ r d', pacsSaveWire 1700000000002
          [("id", WVal.json (.str "mine")), ("node", .json (.str "C"))] (diskAB true)
        = .ok ({ ok := true, record := r }, d') ∧
      ("id" ∈ memberKeys [("id", WVal.json (.str "mine")), ("node", .json (.str "C"))] →
        getMember r "id"
          = getMember [("id", WVal.json (.str "mine")), ("node", .json (.str "C"))] "id") ∧
      ("id" ∉ memberKeys [("id", WVal.json (.str "mine")), ("node", .json (.str "C"))] →
        getMember r "id" = some (.json (.num 1700000000002))) ∧
      (∀ o, stringifyObj r = some o → (diskAB true).writable = true →
        pacsList d' = .ok (.arr ([.obj recA, .obj recB] ++ [.obj o])) ∧
        getProp o "id" = storedValue (getMember r "id")) ∧
      (stringifyObj r = none → d' = diskAB true) ∧
      ((diskAB true).writable = false → d' = diskAB true) ∧
      (∀ v, storedValue (some (.json v)) = some v) ∧
      storedValue (some .nan) = some .null ∧
      (∀ negative, storedValue (some (.infinity negative)) = some .null) ∧
      storedValue (some .undefined) = none) ∧
    (∃ d', pacsSaveWire 1700000000002
          [("id", WVal.json (.str "mine")), ("node", .json (.str "C"))] (diskAB true)
        = .ok ({ ok := true,
                 record := [("id", .json (.str "mine")), ("node", .json (.str "C"))] }, d') ∧
      pacsList d' = .ok (.arr [.obj recA, .obj recB,
        .obj [("id", .str "mine"), ("node", .str "C")]])) :=
  ⟨rfl, by simp [memberKeys],
   pacsSave_id_from_payload (diskAB true) [.obj recA, .obj recB] 1700000000002
     [("id", .json (.str "mine")), ("node", .json (.str "C"))] rfl (by simp [memberKeys]),
   ⟨_, rfl, rfl⟩⟩

/-- C10, the claim as stated fails for an `id` that JSON text cannot hold: a
payload with `id: NaN` is replied with `id` `NaN`, and the record written to a
writable file and listed afterwards has `id` `null`, which is not the
payload's `id`. -/
theorem pacsSave_nan_id_stored_as_null :
    ∃ d', pacsSaveWire 1700000000000 payloadNaN (diskNone true)
        = .ok ({ ok := true, record := payloadNaN }, d') ∧
      getMember payloadNaN "id" = some .nan ∧
      pacsList d' = .ok (.arr [.obj [("id", .null), ("node", .str "A"),
        ("ip", .str "10.0.0.1"), ("port", .str "104"), ("ae", .str "AE1")]]) ∧
      storedValue (getMember payloadNaN "id") = some .null ∧
      WVal.json .null ≠ WVal.nan :=
  ⟨_, rfl, rfl, rfl, rfl, by intro h; cases h⟩

end WebPreview
